import Mathlib

/-
Verification of the message-normalization / filtering / run-merging /
token-trimming subsystem of `libs/core/langchain_core/messages/utils.py`.

The canonical message union (spec section 3) is embedded as a structure with a
variant tag.  All public operations of the file (`filter_messages`,
`merge_message_runs`, `trim_messages` together with the private helpers
`_first_n_tokens` and `_last_n_tokens`) are translated below; each definition
carries a pointer to the source lines it embeds.  The operations all begin by
calling `convert_to_messages`, which on a sequence of already-canonical
messages is the identity (the first branch of `_convert_to_message` is a
passthrough for `BaseMessage` values); all claims quantify over canonical
message sequences, so the conversion layer is dropped.

Python exceptions raised by the trimming code are modelled by `Except` with an
explicit error enumeration; `TrimError.indexError` models an uncaught Python
`IndexError` (an out-of-range list subscript).
-/

namespace Langchain

/-- Variant tags of the canonical message union: the six concrete
`BaseMessage` subclasses (system/human/ai/tool/function/chat). -/
inductive MsgType where
  | system
  | human
  | ai
  | tool
  | function
  | chat
deriving DecidableEq, BEq

/-- The string label of each variant, i.e. the Python `msg.type` attribute
("system", "human", "ai", "tool", "function", "chat"). -/
def typeLabel : MsgType → String
  | .system => "system"
  | .human => "human"
  | .ai => "ai"
  | .tool => "tool"
  | .function => "function"
  | .chat => "chat"

/-- A content block.  Per the data model a block is either a bare string or a
mapping with a `type` key; blocks of type "text" carry a `text` field, other
typed blocks are opaque (their payload is never inspected by the code under
verification, only their `type` key). -/
inductive ContentBlock where
  | bstr (s : String)
  | typed (ty : String) (payload : String)
deriving DecidableEq, BEq

/-- Message content: a plain string or an ordered list of content blocks. -/
inductive Content where
  | str (s : String)
  | blocks (bs : List ContentBlock)
deriving DecidableEq, BEq

/-- Canonical message value: variant tag plus the fields used by the
operations under verification (`content`, optional `name`, optional `id`,
and the chat variant's free-form `role`). -/
structure Msg where
  type : MsgType
  content : Content
  name : Option String := none
  id : Option String := none
  role : String := ""
deriving DecidableEq, BEq

instance : Inhabited Msg := ⟨{ type := .human, content := .str "" }⟩

/-- A type criterion as accepted by `filter_messages`' `incl_types` /
`excl_types` sequences: either a string label or a message class. -/
inductive TypeSpec where
  | tstr (s : String)
  | tcls (t : MsgType)
deriving DecidableEq, BEq

/-- The string entries of a type-criteria sequence
(`[t for t in (types or ()) if isinstance(t, str)]`, utils.py:314,316). -/
def specStrs (l : List TypeSpec) : List String :=
  l.filterMap fun s => match s with | .tstr s => some s | .tcls _ => none

/-- The class entries of a type-criteria sequence
(`tuple(t for t in (types or ()) if isinstance(t, type))`, utils.py:315,317). -/
def specClasses (l : List TypeSpec) : List MsgType :=
  l.filterMap fun s => match s with | .tstr _ => none | .tcls t => some t

/-- Membership of an optional attribute in a criteria list: Python
`msg.name in names` where `msg.name` may be `None` (never a member of a list
of strings). -/
def optMem (o : Option String) (l : List String) : Bool :=
  match o with
  | some s => l.contains s
  | none => false

/-- The exclude chain of the `filter_messages` loop (utils.py:320-329).
Each guard first tests the criteria list for truthiness (a `None` argument
and an empty sequence are both falsy).  The third arm embeds the source's
`isinstance(msg.type, excl_types_types)`: `msg.type` is a `str`, and a string
is never an instance of a `BaseMessage` subclass, so this test is
identically false. -/
def excludedBy (m : Msg) (excl_names : List String) (excl_types : List TypeSpec)
    (excl_ids : List String) : Bool :=
  (!excl_names.isEmpty && optMem m.name excl_names)
  || (!(specStrs excl_types).isEmpty && (specStrs excl_types).contains (typeLabel m.type))
  || (!(specClasses excl_types).isEmpty && false)
  || (!excl_ids.isEmpty && optMem m.id excl_ids)

/-- The include chain of the `filter_messages` loop (utils.py:331-344);
here `isinstance(msg, incl_types_types)` genuinely tests the message's class,
embedded as membership of its variant tag. -/
def includedBy (m : Msg) (incl_names : List String) (incl_types : List TypeSpec)
    (incl_ids : List String) : Bool :=
  (!incl_names.isEmpty && optMem m.name incl_names)
  || (!(specStrs incl_types).isEmpty && (specStrs incl_types).contains (typeLabel m.type))
  || (!(specClasses incl_types).isEmpty && (specClasses incl_types).contains m.type)
  || (!incl_ids.isEmpty && optMem m.id incl_ids)

/-- `filter_messages` (utils.py:252-347): keep a message iff it trips no
exclude guard and trips at least one include guard. -/
def filter_messages (msgs : List Msg) (incl_names excl_names : List String)
    (incl_types excl_types : List TypeSpec) (incl_ids excl_ids : List String) :
    List Msg :=
  msgs.filter fun m =>
    !excludedBy m excl_names excl_types excl_ids
    && includedBy m incl_names incl_types incl_ids

/-- Concrete message fixtures used by the claim evaluations. -/
def sysM : Msg := { type := .system, content := .str "s" }

def humA : Msg := { type := .human, content := .str "a" }

def humB : Msg := { type := .human, content := .str "b" }

def humC : Msg := { type := .human, content := .str "c" }

def aiB : Msg := { type := .ai, content := .str "r" }

/-- Modelled from the spec: the block-list half of the chunk content merge,
"block-list concatenation with adjacent same-typed text blocks combined"
(spec section 3).  The chunk classes' `+` operation is not under `src/`. -/
def combineBlocks : List ContentBlock → List ContentBlock
  | [] => []
  | [b] => [b]
  | .typed "text" a :: .typed "text" b :: rest =>
      combineBlocks (.typed "text" (a ++ b) :: rest)
  | b :: rest => b :: combineBlocks rest
termination_by l => l.length

/-- Modelled from the spec: the chunk merge's content combination —
"concatenates content (string concatenation, or block-list concatenation with
adjacent same-typed text blocks combined)" (spec section 3).  The spec does
not fix mixed string/block-list content; a bare string is treated as a single
string block, matching the block-list clause.  (`BaseMessageChunk.__add__` /
`merge_content` are not under `src/`.) -/
def mergeContent : Content → Content → Content
  | .str a, .str b => .str (a ++ b)
  | .blocks a, .blocks b => .blocks (combineBlocks (a ++ b))
  | .str a, .blocks b => .blocks (combineBlocks (.bstr a :: b))
  | .blocks a, .str b => .blocks (combineBlocks (a ++ [.bstr b]))

/-- Modelled from the spec: the field merge of two same-variant messages, i.e.
the composite `_chunk_to_msg(_msg_to_chunk(last) + _msg_to_chunk(curr))` of
utils.py:377.  `_msg_to_chunk` (utils.py:580) and `_chunk_to_msg` (utils.py:595)
copy every field onto the chunk variant of the same tag and back, so the
composite reduces to the chunk `+` on plain messages: content is merged as in
`mergeContent`, `name`/`id` follow the spec's "names must match or one is
null; ids follow a first-wins or override policy" (first-wins).
The variant tag of the result is the left operand's tag. -/
def mergePair (last curr : Msg) : Msg :=
  { type := last.type
    content := mergeContent last.content curr.content
    name := last.name <|> curr.name
    id := last.id <|> curr.id
    role := last.role }

/-- The accumulator loop of `merge_message_runs` (utils.py:371-377).  The
Python list `merged` is split as `init ++ [last]`: each iteration pops `last`,
and either extends `init` with `[last, curr]` (variant change) or replaces
`last` by the merged pair (same variant, `isinstance(curr, last.__class__)`).
The per-message `copy(deep=True)` calls are the identity on values. -/
def mergeLoop (init : List Msg) (last : Msg) : List Msg → List Msg
  | [] => init ++ [last]
  | curr :: rest =>
      if curr.type = last.type then mergeLoop init (mergePair last curr) rest
      else mergeLoop (init ++ [last]) curr rest

/-- `merge_message_runs` (utils.py:350-378): empty input yields empty output;
otherwise the accumulator is seeded with (a copy of) the first message. -/
def merge_message_runs : List Msg → List Msg
  | [] => []
  | m :: rest => mergeLoop [] m rest

/-- No two adjacent messages share a variant tag (the shape `merge_message_runs`
guarantees of its output). -/
def noAdjSame : List Msg → Bool
  | [] => true
  | [_] => true
  | a :: b :: rest => decide (a.type ≠ b.type) && noAdjSame (b :: rest)

/-- Failure modes of `trim_messages` and its helpers: the explicit
`ValueError`s of utils.py:431-436 and utils.py:467-469, and an uncaught
Python `IndexError` from an out-of-range list subscript. -/
inductive TrimError where
  | incompatibleOptions
  | unrecognizedStrategy
  | indexError
deriving DecidableEq, BEq

deriving instance DecidableEq for Except

/-- The `strategy` argument of `trim_messages`: the two recognized literals
plus any other string. -/
inductive Strategy where
  | first
  | last
  | other (s : String)
deriving DecidableEq, BEq

/-- The runtime shape of the `end_on` / `start_on` argument.  `nullArg` is
Python `None`; `ostr`/`otype` are a bare string label / message class (the
shapes `_first_n_tokens`' `isinstance` checks recognize, utils.py:528,531);
`oseq` is a sequence of labels/classes — the shape the parameter annotation
`Optional[Sequence[Union[str, Type[BaseMessage]]]]` declares
(utils.py:386-387). -/
inductive EndOn where
  | nullArg
  | ostr (s : String)
  | otype (t : MsgType)
  | oseq (specs : List TypeSpec)
deriving DecidableEq, BEq

/-- Python truthiness of an `end_on`/`start_on` value, as tested by
`if end_on and strategy == "last"` (utils.py:431): `None`, the empty string
and an empty sequence are falsy. -/
def endOnTruthy : EndOn → Bool
  | .nullArg => false
  | .ostr s => !(s == "")
  | .otype _ => true
  | .oseq specs => !specs.isEmpty

/-- The boundary-search loop of `_first_n_tokens` (utils.py:482-486):
`for i in range(len(messages)): if token_counter(messages[:-i] if i else
messages) <= n_tokens: idx = len(messages) - i; break`.  The tested prefix
lengths are `len`, `len-1`, ..., `1` in that order; the first fitting length
is returned, else the initial `idx = 0`. -/
def searchGo (counter : List Msg → Nat) (n : Nat) (msgs : List Msg) : Nat → Nat
  | 0 => 0
  | k + 1 => if counter (msgs.take (k + 1)) ≤ n then k + 1 else searchGo counter n msgs k

/-- The selected boundary index `idx` after the search loop of
`_first_n_tokens` (utils.py:481-486). -/
def searchIdx (counter : List Msg → Nat) (n : Nat) (msgs : List Msg) : Nat :=
  searchGo counter n msgs msgs.length

/-- The progressive-drop loops of the partial-truncation step
(utils.py:494-499 and utils.py:521-526): starting from `num` units, drop one
trailing unit at a time and re-test, i.e. try the truncation lengths `num-1`,
`num-2`, ..., `1` and return the first length the predicate accepts
(`none` when the loop body never accepts, including `num <= 1` where
`range(1, num)` is empty).  Called with the count `num - 1`. -/
def dropGo (fits : Nat → Bool) : Nat → Option Nat
  | 0 => none
  | t + 1 => if fits (t + 1) then some (t + 1) else dropGo fits t

/-- Replace a message's content by a block list (the mutation
`excluded.content = ...` performed on the deep copy of the boundary
message). -/
def setBlocks (m : Msg) (bs : List ContentBlock) : Msg :=
  { m with content := .blocks bs }

/-- A `{type: "text", text: t}` block (utils.py:520). -/
def mkTextBlock (t : String) : ContentBlock := .typed "text" t

/-- The text carried by a block that satisfies
`isinstance(block, str) or block["type"] == "text"` (utils.py:505-513):
a bare string block is its own text, a "text"-typed mapping carries it in
its `text` field. -/
def blockText : ContentBlock → Option String
  | .bstr s => some s
  | .typed ty payload => if ty = "text" then some payload else none

/-- `isinstance(block, str) or block["type"] == "text"` (utils.py:506,511). -/
def isTextish (b : ContentBlock) : Bool := (blockText b).isSome

/-- The `text` selected by utils.py:504-517: for block content, the text of
the first string-or-text block (if any); for string content, the string
itself. -/
def extractText : Content → Option String
  | .blocks bs => (bs.find? isTextish).bind blockText
  | .str s => some s

/-- The fit test of the progressive-drop loops:
`token_counter(messages[:idx] + [excluded]) <= n_tokens` where `excluded` is
the boundary message with its content truncated to the first `t` blocks
(utils.py:496,523). -/
def blockFits (counter : List Msg → Nat) (n : Nat) (msgs : List Msg) (idx : Nat)
    (bs : List ContentBlock) (t : Nat) : Bool :=
  decide (counter (msgs.take idx ++ [setBlocks (msgs.getD idx default) (bs.take t)]) ≤ n)

/-- The block-level partial-truncation attempt (utils.py:493-501): only when
the boundary message's content is a block list; drop trailing blocks one at a
time (at most `num_block - 1` of them) and accept the first fit, producing the
new message list `messages[:idx] + [excluded]`. -/
def truncateByBlocks (counter : List Msg → Nat) (n : Nat) (msgs : List Msg)
    (idx : Nat) : Option (List Msg) :=
  match (msgs.getD idx default).content with
  | .blocks bs =>
      (dropGo (blockFits counter n msgs idx bs) (bs.length - 1)).map
        fun t => msgs.take idx ++ [setBlocks (msgs.getD idx default) (bs.take t)]
  | .str _ => none

/-- The text-split partial-truncation attempt (utils.py:502-526), reached
when no block-level fit was found: extract a text (see `extractText`),
skip when it is `None` or empty (`if text:`), otherwise split it, re-wrap
each unit as a text block, and run the same progressive-drop search over the
units. -/
def truncateByText (counter : List Msg → Nat) (n : Nat)
    (splitter : String → List String) (msgs : List Msg) (idx : Nat) :
    Option (List Msg) :=
  match extractText (msgs.getD idx default).content with
  | none => none
  | some text =>
      if text = "" then none
      else
        (dropGo (blockFits counter n msgs idx ((splitter text).map mkTextBlock))
            (((splitter text).map mkTextBlock).length - 1)).map
          fun t => msgs.take idx ++
            [setBlocks (msgs.getD idx default)
              (((splitter text).map mkTextBlock).take t)]

/-- The whole partial-truncation step of `_first_n_tokens`
(utils.py:488-526): the block-level attempt, then (`if not included_partial`)
the text-split attempt; on success `messages` becomes
`messages[:idx] + [excluded]` and `idx` is incremented. -/
def truncStep (counter : List Msg → Nat) (n : Nat)
    (splitter : String → List String) (msgs : List Msg) (idx : Nat) :
    List Msg × Nat :=
  match truncateByBlocks counter n msgs idx with
  | some out => (out, idx + 1)
  | none =>
      match truncateByText counter n splitter msgs idx with
      | some out => (out, idx + 1)
      | none => (msgs, idx)

/-- The boundary-alignment loop of `_first_n_tokens` (utils.py:528-535):
`while not <matches>(messages[idx - 1]) and idx > 0: idx -= 1`, for a
nonempty message list (on an empty list the Python subscript `messages[-1]`
raises; that case is handled by the caller `endOnStage`).  Decrements `idx`
until the last included message matches or `idx` reaches 0. -/
def alignGo (p : Msg → Bool) (msgs : List Msg) : Nat → Nat
  | 0 => 0
  | j + 1 => if p (msgs.getD j default) then j + 1 else alignGo p msgs j

/-- The first half of `_first_n_tokens` (utils.py:481-526): boundary search,
then the partial-truncation step when `idx < len(messages) - 1 and
allow_partial` (Nat subtraction agrees with the Python comparison here, since
for an empty list `idx = 0` and `0 < 0` is as false as `0 < -1`).  Returns
the (possibly rebuilt) message list together with the final `idx`. -/
def truncStage (counter : List Msg → Nat) (n : Nat) (allowTrunc : Bool)
    (splitter : String → List String) (msgs : List Msg) : List Msg × Nat :=
  if searchIdx counter n msgs < msgs.length - 1 ∧ allowTrunc = true then
    truncStep counter n splitter msgs (searchIdx counter n msgs)
  else (msgs, searchIdx counter n msgs)

/-- The tail of `_first_n_tokens` (utils.py:528-537): the `end_on` dispatch.
A bare string label or bare class runs the alignment loop (raising
`IndexError` on an empty list, see `alignGo`); `None` — and, crucially, any
*sequence*-shaped value, which is neither a `str` nor a `type` — falls into
the `else: pass` arm and skips alignment.  Finally `messages[:idx]` is
returned. -/
def endOnStage (endOn : EndOn) (st : List Msg × Nat) : Except TrimError (List Msg) :=
  match endOn with
  | .ostr s =>
      if st.1.isEmpty then .error .indexError
      else .ok (st.1.take (alignGo (fun m => typeLabel m.type == s) st.1 st.2))
  | .otype t =>
      if st.1.isEmpty then .error .indexError
      else .ok (st.1.take (alignGo (fun m => m.type == t) st.1 st.2))
  | _ => .ok (st.1.take st.2)

/-- `_first_n_tokens` (utils.py:471-537). -/
def firstNTokens (counter : List Msg → Nat) (n : Nat) (allowTrunc : Bool)
    (endOn : EndOn) (splitter : String → List String) (msgs : List Msg) :
    Except TrimError (List Msg) :=
  endOnStage endOn (truncStage counter n allowTrunc splitter msgs)

/-- `isinstance(messages[0], SystemMessage)` for a nonempty list; `false` is
only ever used when `keep_system` already short-circuited the conjunction
(utils.py:549). -/
def headIsSystem (msgs : List Msg) : Bool :=
  match msgs.head? with
  | some m => m.type == .system
  | none => false

/-- The Python slice `xs[1::-1]` (utils.py:551,564): the elements at indices
1 and 0 in reverse order — NOT the reversal of `xs[1:]`.  For a list of
length ≥ 2 this is `[xs[1], xs[0]]`; for a singleton, `[xs[0]]`. -/
def slice10rev (xs : List Msg) : List Msg :=
  match xs with
  | [] => []
  | [a] => [a]
  | a :: b :: _ => [b, a]

/-- `_last_n_tokens` (utils.py:540-566): when `keep_system` holds and the
first message is a system message (inspecting `messages[0]` — an
`IndexError` on an empty input), build `messages[:1] + messages[1::-1]`,
otherwise `messages[::-1]`; run `_first_n_tokens` on it with `start_on` in
the `end_on` role; then undo with the same construction
(`reversed_[:1] + reversed_[1::-1]`, respectively `reversed_[::-1]`). -/
def lastNTokens (counter : List Msg → Nat) (n : Nat) (allowTrunc keepSystem : Bool)
    (startOn : EndOn) (splitter : String → List String) (msgs : List Msg) :
    Except TrimError (List Msg) :=
  if keepSystem && msgs.isEmpty then .error .indexError
  else if keepSystem && headIsSystem msgs then
    (firstNTokens counter n allowTrunc startOn splitter
        (msgs.take 1 ++ slice10rev msgs)).map
      fun r => r.take 1 ++ slice10rev r
  else
    (firstNTokens counter n allowTrunc startOn splitter msgs.reverse).map
      List.reverse

/-- `_default_text_splitter` (utils.py:611-612): `text.split("\n")`. -/
def default_text_splitter (text : String) : List String :=
  text.splitOn "\n"

/-- `trim_messages` (utils.py:381-469): the three incompatible-option
`ValueError`s, then dispatch on `strategy`.  The token counter is taken
directly in its whole-list shape: utils.py:438-447 converts a per-message
counter into exactly the summed list counter, so a per-message counter `c`
enters here as `fun l => (l.map c).sum`.  Neither `_first_n_tokens` nor
`_last_n_tokens` is passed a `text_splitter`, so both use the default. -/
def trim_messages (msgs : List Msg) (counter : List Msg → Nat) (n : Nat)
    (strategy : Strategy) (allowTrunc : Bool) (endOn startOn : EndOn)
    (keepSystem : Bool) : Except TrimError (List Msg) :=
  if endOnTruthy endOn = true ∧ strategy = .last then .error .incompatibleOptions
  else if endOnTruthy startOn = true ∧ strategy = .first then .error .incompatibleOptions
  else if keepSystem = true ∧ strategy = .first then .error .incompatibleOptions
  else
    match strategy with
    | .first => firstNTokens counter n allowTrunc endOn default_text_splitter msgs
    | .last => lastNTokens counter n allowTrunc keepSystem startOn default_text_splitter msgs
    | .other _ => .error .unrecognizedStrategy

/-- Per-message unit cost summed over the list: the "unit per-message costs"
counter of the examples (`token_counter` annotated on `BaseMessage` and
returning 1, summed by utils.py:443-445). -/
def lenCounter (l : List Msg) : Nat := l.length

/-- A per-message cost of 1 for string content and one token per block for
block content, summed over the list (witness fixture). -/
def msgSize (m : Msg) : Nat :=
  match m.content with
  | .str _ => 1
  | .blocks bs => bs.length

def sizeCounter (l : List Msg) : Nat := (l.map msgSize).sum

/-- A counter making every single message cost 5 (witness fixture). -/
def fiveCounter (l : List Msg) : Nat := 5 * l.length

/-- Fixtures for the partial-truncation claims. -/
def tb1 : ContentBlock := .typed "text" "p"

def tb2 : ContentBlock := .typed "text" "q"

def w0 : Msg := { type := .human, content := .str "x" }

def w1 : Msg := { type := .human, content := .blocks [tb1, tb2] }

def w2 : Msg := { type := .human, content := .str "y" }

/-- The single message of C4's concrete example: content
`[{type: "text", text: "aaaa"}]`. -/
def m4 : Msg := { type := .human, content := .blocks [.typed "text" "aaaa"] }

end Langchain

namespace Langchain

/-- C7: `filter_messages` with no include criteria and no exclude criteria
returns the empty sequence — a message is kept only when it matches at least
one supplied include criterion, so an all-absent include set keeps nothing. -/
theorem c7_filter_no_criteria_empty (msgs : List Msg) :
    filter_messages msgs [] [] [] [] [] [] = [] := by
  induction msgs with
  | nil => rfl
  | cons m rest ih =>
    simp only [filter_messages, List.filter] at ih ⊢
    simp [includedBy, excludedBy, optMem, specStrs, specClasses, ih]

/-- C6 (refuted on the code): a message whose type matches an excluded type
given as a message class is nevertheless returned when it matches an include
criterion, because the source tests `isinstance(msg.type, excl_types_types)`
on the type *string* instead of the message.  Here the human message matches
the exclude criterion (its class is the excluded class) yet is kept. -/
theorem c6_class_exclude_ignored :
    filter_messages [humA] [] [] [.tstr "human"] [.tcls .human] [] [] = [humA]
    ∧ humA.type = .human := by
  constructor
  · rfl
  · rfl

/-- The merged pair keeps the left operand's variant tag. -/
theorem mergePair_type (a b : Msg) : (mergePair a b).type = a.type := rfl

/-- Unfolding `mergeLoop` at an empty worklist. -/
theorem mergeLoop_nil (init : List Msg) (last : Msg) :
    mergeLoop init last [] = init ++ [last] := rfl

/-- Unfolding `mergeLoop` at a nonempty worklist. -/
theorem mergeLoop_cons (init : List Msg) (last curr : Msg) (rest : List Msg) :
    mergeLoop init last (curr :: rest) =
      if curr.type = last.type then mergeLoop init (mergePair last curr) rest
      else mergeLoop (init ++ [last]) curr rest := rfl

/-- The finalized part of the accumulator factors out of `mergeLoop`:
once a message is pushed below the top of `merged` it is never revisited. -/
theorem mergeLoop_factor : ∀ (todo init : List Msg) (last : Msg),
    mergeLoop init last todo = init ++ mergeLoop [] last todo := by
  intro todo
  induction todo with
  | nil => intro init last; rw [mergeLoop_nil, mergeLoop_nil, List.nil_append]
  | cons curr rest ih =>
      intro init last
      rw [mergeLoop_cons, mergeLoop_cons]
      by_cases h : curr.type = last.type
      · rw [if_pos h, if_pos h, ih init (mergePair last curr)]
      · rw [if_neg h, if_neg h, ih (init ++ [last]) curr, ih ([] ++ [last]) curr]
        simp [List.append_assoc]

/-- `mergeLoop` emits a nonempty list whose head carries the variant tag of
the pending accumulation. -/
theorem mergeLoop_head : ∀ (todo : List Msg) (last : Msg),
    ∃ hd tl, mergeLoop [] last todo = hd :: tl ∧ hd.type = last.type := by
  intro todo
  induction todo with
  | nil => intro last; exact ⟨last, [], rfl, rfl⟩
  | cons curr rest ih =>
      intro last
      by_cases h : curr.type = last.type
      · obtain ⟨hd, tl, he, ht⟩ := ih (mergePair last curr)
        exact ⟨hd, tl, by rw [mergeLoop_cons, if_pos h]; exact he,
          by rw [ht, mergePair_type]⟩
      · refine ⟨last, mergeLoop [] curr rest, ?_, rfl⟩
        rw [mergeLoop_cons, if_neg h, mergeLoop_factor rest ([] ++ [last]) curr]
        simp

/-- The output of the merge loop has no adjacent same-variant pair. -/
theorem mergeLoop_noAdjSame : ∀ (todo : List Msg) (last : Msg),
    noAdjSame (mergeLoop [] last todo) = true := by
  intro todo
  induction todo with
  | nil => intro last; rfl
  | cons curr rest ih =>
      intro last
      by_cases h : curr.type = last.type
      · simpa [mergeLoop_cons, h] using ih (mergePair last curr)
      · have hrw : mergeLoop [] last (curr :: rest) = last :: mergeLoop [] curr rest := by
          rw [mergeLoop_cons, if_neg h, mergeLoop_factor rest ([] ++ [last]) curr]
          simp
        obtain ⟨hd, tl, he, ht⟩ := mergeLoop_head rest curr
        have hih : noAdjSame (hd :: tl) = true := he ▸ ih curr
        rw [hrw, he]
        simp only [noAdjSame, Bool.and_eq_true, decide_eq_true_eq]
        exact ⟨by rw [ht]; exact fun e => h e.symm, hih⟩

/-- On a list with no adjacent same-variant pair the merge loop is the
identity: nothing is ever combined. -/
theorem mergeLoop_id : ∀ (todo : List Msg) (last : Msg),
    noAdjSame (last :: todo) = true → mergeLoop [] last todo = last :: todo := by
  intro todo
  induction todo with
  | nil => intro last _; rfl
  | cons curr rest ih =>
      intro last hna
      simp only [noAdjSame, Bool.and_eq_true, decide_eq_true_eq] at hna
      have hcond : ¬ (curr.type = last.type) := fun e => hna.1 e.symm
      rw [mergeLoop_cons, if_neg hcond, mergeLoop_factor rest ([] ++ [last]) curr,
        ih curr hna.2]
      simp

/-- C8: `merge_message_runs` is idempotent — its output contains no adjacent
same-variant run, so re-merging combines nothing and returns the same list. -/
theorem c8_merge_runs_idempotent (msgs : List Msg) :
    merge_message_runs (merge_message_runs msgs) = merge_message_runs msgs := by
  cases msgs with
  | nil => rfl
  | cons m rest =>
      obtain ⟨hd, tl, he, _⟩ := mergeLoop_head rest m
      have hna : noAdjSame (hd :: tl) = true := he ▸ mergeLoop_noAdjSame rest m
      simp only [merge_message_runs]
      rw [he]
      simp only [merge_message_runs]
      exact mergeLoop_id tl hd hna

/-- With `strategy="first"`, a null `start_on` and `keep_system` unset, the
incompatible-option checks pass and `trim_messages` is `_first_n_tokens`. -/
theorem trim_first_dispatch (msgs : List Msg) (counter : List Msg → Nat) (n : Nat)
    (allowTrunc : Bool) (endOn : EndOn) :
    trim_messages msgs counter n .first allowTrunc endOn .nullArg false =
      firstNTokens counter n allowTrunc endOn default_text_splitter msgs := by
  rw [trim_messages]
  rw [if_neg (by rintro ⟨-, h⟩; simp at h)]
  rw [if_neg (by rintro ⟨h, -⟩; simp [endOnTruthy] at h)]
  rw [if_neg (by rintro ⟨h, -⟩; simp at h)]

/-- With `strategy="last"` and a null `end_on`, the incompatible-option
checks pass and `trim_messages` is `_last_n_tokens`. -/
theorem trim_last_dispatch (msgs : List Msg) (counter : List Msg → Nat) (n : Nat)
    (allowTrunc keepSystem : Bool) (startOn : EndOn) :
    trim_messages msgs counter n .last allowTrunc .nullArg startOn keepSystem =
      lastNTokens counter n allowTrunc keepSystem startOn default_text_splitter msgs := by
  rw [trim_messages]
  rw [if_neg (by rintro ⟨h, -⟩; simp [endOnTruthy] at h)]
  rw [if_neg (by rintro ⟨-, h⟩; simp at h)]
  rw [if_neg (by rintro ⟨-, h⟩; simp at h)]

/-- C1 (refuted on the code): on `[system, human "a", human "b", human "c"]`
with unit per-message costs and `max_tokens = 2`, `trim(strategy="last",
keep_leading_system=True)` returns `[system, human "a", system]` — the slice
`messages[1::-1]` (utils.py:551) reverses only the first two elements instead
of the tail, duplicating the system message, keeping the FIRST human and
dropping the last two — not the claimed system message followed by the last
two humans. -/
theorem c1_keep_system_eval :
    trim_messages [sysM, humA, humB, humC] lenCounter 2 .last false .nullArg .nullArg true =
      .ok [sysM, humA, sysM]
    ∧ ([sysM, humA, sysM] : List Msg) ≠ [sysM, humB, humC] := by
  exact ⟨by decide, by decide⟩

/-- C3 (refuted on the code): under `strategy="last"` with
`keep_leading_system` set, the output duplicates the system message (it
occurs twice in the output but once in the input), so the output is neither a
contiguous prefix nor a contiguous suffix of the input with at most one
boundary message rewritten, and a message IS duplicated. -/
theorem c3_no_reorder_eval :
    trim_messages [sysM, humA, humB, humC] lenCounter 2 .last false .nullArg .nullArg true =
      .ok [sysM, humA, sysM]
    ∧ ([sysM, humA, sysM] : List Msg).count sysM = 2
    ∧ ([sysM, humA, humB, humC] : List Msg).count sysM = 1 := by
  exact ⟨by decide, by decide, by decide⟩

/-- C5 (refuted on the code): an `end_on` boundary type supplied per the
parameter's declared shape `Optional[Sequence[Union[str, Type[BaseMessage]]]]`
— here the singleton sequence `["human"]` — is neither a bare `str` nor a
bare `type`, so utils.py:528-535 falls into `else: pass` and skips boundary
alignment entirely: the returned prefix `[human, ai]` is nonempty and its
last message does not match the boundary type. -/
theorem c5_seq_end_on_eval :
    trim_messages [humA, aiB] lenCounter 10 .first false (.oseq [.tstr "human"]) .nullArg false =
      .ok [humA, aiB]
    ∧ typeLabel aiB.type ≠ "human"
    ∧ ([humA, aiB] : List Msg) ≠ [] := by
  exact ⟨by decide, by decide, by decide⟩

/-- C4 counterexample: on a single message with content
`[{type: "text", text: "aaaa"}]` that is over budget (it costs 5 against a
budget of 1), `trim(strategy="first", allow_partial=True)` returns the EMPTY
sequence, not a truncated block-content message: partial truncation is only
attempted when `idx < len(messages) - 1` (utils.py:488), which is `0 < 0`
here — and even otherwise, a single block can never be dropped
(`range(1, 1)` is empty) and `"aaaa"` splits into a single unit. -/
theorem c4_single_message_eval :
    1 < fiveCounter [m4]
    ∧ trim_messages [m4] fiveCounter 1 .first true .nullArg .nullArg false = .ok [] := by
  exact ⟨by decide, by decide⟩

/-- Unfolding `searchGo` at 0. -/
theorem searchGo_zero (counter : List Msg → Nat) (n : Nat) (msgs : List Msg) :
    searchGo counter n msgs 0 = 0 := rfl

/-- Unfolding `searchGo` at a successor. -/
theorem searchGo_succ (counter : List Msg → Nat) (n : Nat) (msgs : List Msg) (k : Nat) :
    searchGo counter n msgs (k + 1) =
      if counter (msgs.take (k + 1)) ≤ n then k + 1 else searchGo counter n msgs k := rfl

/-- The boundary search never exceeds the number of tested lengths. -/
theorem searchGo_le (counter : List Msg → Nat) (n : Nat) (msgs : List Msg) :
    ∀ k, searchGo counter n msgs k ≤ k := by
  intro k
  induction k with
  | zero => exact Nat.le_refl 0
  | succ k ih =>
      rw [searchGo_succ]
      by_cases h : counter (msgs.take (k + 1)) ≤ n
      · rw [if_pos h]
      · rw [if_neg h]; exact Nat.le_trans ih (Nat.le_succ k)

/-- The selected boundary index is 0 or selects a fitting budget. -/
theorem searchGo_fits (counter : List Msg → Nat) (n : Nat) (msgs : List Msg) :
    ∀ k, searchGo counter n msgs k = 0
      ∨ counter (msgs.take (searchGo counter n msgs k)) ≤ n := by
  intro k
  induction k with
  | zero => left; rfl
  | succ k ih =>
      rw [searchGo_succ]
      by_cases h : counter (msgs.take (k + 1)) ≤ n
      · right; rw [if_pos h]; exact h
      · rw [if_neg h]; exact ih

/-- The boundary search is maximal: any positive tested length whose budget
fits is at most the selected index. -/
theorem searchGo_max (counter : List Msg → Nat) (n : Nat) (msgs : List Msg) :
    ∀ k j, 1 ≤ j → j ≤ k → counter (msgs.take j) ≤ n →
      j ≤ searchGo counter n msgs k := by
  intro k
  induction k with
  | zero => intro j h1 h2 _; omega
  | succ k ih =>
      intro j h1 h2 hc
      rw [searchGo_succ]
      by_cases h : counter (msgs.take (k + 1)) ≤ n
      · rw [if_pos h]; exact h2
      · rw [if_neg h]
        have hj : j ≠ k + 1 := by rintro rfl; exact h hc
        exact ih j h1 (by omega) hc

/-- C2: with `strategy="first"`, `allow_partial` unset and no boundary type,
`trim` returns exactly `messages[0:k]` for the largest `k` such that the
counter applied to `messages[0:k]` is within budget; `k = 0` is permitted
(the fallback when even the first message alone exceeds the budget), and
every longer candidate is over budget. -/
theorem c2_first_longest_kept (counter : List Msg → Nat) (n : Nat) (msgs : List Msg) :
    ∃ k, k ≤ msgs.length
      ∧ trim_messages msgs counter n .first false .nullArg .nullArg false =
          .ok (msgs.take k)
      ∧ (k = 0 ∨ counter (msgs.take k) ≤ n)
      ∧ ∀ j, k < j → j ≤ msgs.length → n < counter (msgs.take j) := by
  refine ⟨searchIdx counter n msgs, searchGo_le counter n msgs msgs.length, ?_,
    searchGo_fits counter n msgs msgs.length, ?_⟩
  · rw [trim_first_dispatch, firstNTokens, truncStage]
    rw [if_neg (by rintro ⟨-, h⟩; simp at h)]
    rfl
  · intro j hkj hjl
    by_contra hle
    push_neg at hle
    have hs : searchIdx counter n msgs = searchGo counter n msgs msgs.length := rfl
    rw [hs] at hkj
    exact absurd (searchGo_max counter n msgs msgs.length j (by omega) hjl hle) (by omega)

/-- Unfolding `dropGo` at 0. -/
theorem dropGo_zero (fits : Nat → Bool) : dropGo fits 0 = none := rfl

/-- Unfolding `dropGo` at a successor. -/
theorem dropGo_succ (fits : Nat → Bool) (t : Nat) :
    dropGo fits (t + 1) =
      if fits (t + 1) then some (t + 1) else dropGo fits t := rfl

/-- A successful progressive-drop search returns the largest fitting
truncation length in `[1, k]` (the first fit while scanning downward). -/
theorem dropGo_spec (fits : Nat → Bool) :
    ∀ k t, dropGo fits k = some t →
      1 ≤ t ∧ t ≤ k ∧ fits t = true ∧ ∀ u, t < u → u ≤ k → fits u = false := by
  intro k
  induction k with
  | zero => intro t h; rw [dropGo_zero] at h; cases h
  | succ k ih =>
      intro t h
      rw [dropGo_succ] at h
      by_cases hf : fits (k + 1) = true
      · rw [if_pos hf] at h
        cases h
        refine ⟨by omega, Nat.le_refl _, hf, ?_⟩
        intro u hu1 hu2
        exact absurd hu2 (by omega)
      · rw [if_neg hf] at h
        obtain ⟨h1, h2, h3, h4⟩ := ih t h
        refine ⟨h1, by omega, h3, ?_⟩
        intro u hu1 hu2
        rcases Nat.lt_or_ge u (k + 1) with hu | hu
        · exact h4 u hu1 (by omega)
        · have hue : u = k + 1 := by omega
          subst hue
          cases h' : fits (k + 1)
          · rfl
          · exact absurd h' hf

/-- The progressive-drop search succeeds whenever some tested length fits. -/
theorem dropGo_some_of_fit (fits : Nat → Bool) :
    ∀ k, (∃ u, 1 ≤ u ∧ u ≤ k ∧ fits u = true) → ∃ t, dropGo fits k = some t := by
  intro k
  induction k with
  | zero => rintro ⟨u, h1, h2, -⟩; exfalso; omega
  | succ k ih =>
      rintro ⟨u, h1, h2, h3⟩
      rw [dropGo_succ]
      by_cases hf : fits (k + 1) = true
      · exact ⟨k + 1, by rw [if_pos hf]⟩
      · rw [if_neg hf]
        apply ih
        have hu : u ≠ k + 1 := by rintro rfl; exact hf h3
        exact ⟨u, h1, by omega, h3⟩

/-- A successful block-level truncation appends to `messages[:idx]` a single
message whose content is a nonempty block list. -/
theorem truncateByBlocks_sound (counter : List Msg → Nat) (n : Nat) (msgs : List Msg)
    (idx : Nat) (out : List Msg) (h : truncateByBlocks counter n msgs idx = some out) :
    ∃ x bs', out = msgs.take idx ++ [x] ∧ x.content = Content.blocks bs' ∧ bs' ≠ [] := by
  rcases hc : (msgs.getD idx default).content with s | bs
  · simp only [truncateByBlocks, hc] at h
    exact Option.noConfusion h
  · simp only [truncateByBlocks, hc, Option.map_eq_some'] at h
    obtain ⟨t, ht, rfl⟩ := h
    obtain ⟨h1, h2, -, -⟩ := dropGo_spec _ _ _ ht
    refine ⟨setBlocks (msgs.getD idx default) (bs.take t), bs.take t, rfl, rfl, ?_⟩
    intro he
    rcases List.take_eq_nil_iff.mp he with h0 | h0
    · omega
    · rw [h0] at h2
      simp at h2
      omega

/-- A successful text-split truncation appends to `messages[:idx]` a single
message whose content is a nonempty block list. -/
theorem truncateByText_sound (counter : List Msg → Nat) (n : Nat)
    (splitter : String → List String) (msgs : List Msg) (idx : Nat) (out : List Msg)
    (h : truncateByText counter n splitter msgs idx = some out) :
    ∃ x bs', out = msgs.take idx ++ [x] ∧ x.content = Content.blocks bs' ∧ bs' ≠ [] := by
  rcases hc : extractText (msgs.getD idx default).content with - | text
  · simp only [truncateByText, hc] at h
    exact Option.noConfusion h
  · simp only [truncateByText, hc] at h
    by_cases he : text = ""
    · rw [if_pos he] at h
      cases h
    · rw [if_neg he, Option.map_eq_some'] at h
      obtain ⟨t, ht, rfl⟩ := h
      obtain ⟨h1, h2, -, -⟩ := dropGo_spec _ _ _ ht
      refine ⟨setBlocks (msgs.getD idx default) (((splitter text).map mkTextBlock).take t),
        ((splitter text).map mkTextBlock).take t, rfl, rfl, ?_⟩
      intro hnil
      rcases List.take_eq_nil_iff.mp hnil with h0 | h0
      · omega
      · rw [h0] at h2
        simp at h2
        omega

/-- C9: partial truncation never empties the boundary message — whenever the
partial-truncation step of `_first_n_tokens` does include a truncated
boundary message (the step returns with `idx` incremented), the appended
message's content is a NONEMPTY block list: both progressive-drop loops
remove at most all-but-one trailing unit. -/
theorem c9_truncated_boundary_nonempty (counter : List Msg → Nat) (n : Nat)
    (splitter : String → List String) (msgs out : List Msg) (idx : Nat)
    (h : truncStep counter n splitter msgs idx = (out, idx + 1)) :
    ∃ x bs', out = msgs.take idx ++ [x] ∧ x.content = Content.blocks bs' ∧ bs' ≠ [] := by
  cases hb : truncateByBlocks counter n msgs idx with
  | some outb =>
      simp only [truncStep, hb, Prod.mk.injEq] at h
      obtain ⟨h1, -⟩ := h
      subst h1
      exact truncateByBlocks_sound counter n msgs idx outb hb
  | none =>
      cases htx : truncateByText counter n splitter msgs idx with
      | some outt =>
          simp only [truncStep, hb, htx, Prod.mk.injEq] at h
          obtain ⟨h1, -⟩ := h
          subst h1
          exact truncateByText_sound counter n splitter msgs idx outt htx
      | none =>
          simp only [truncStep, hb, htx, Prod.mk.injEq] at h
          obtain ⟨-, h2⟩ := h
          omega

/-- C4 amended: partial truncation fires only when the boundary index leaves
at least two messages excluded (`idx < len(messages) - 1`, utils.py:488), the
boundary message has block content, and some proper truncation (keeping
between 1 and all-but-one leading blocks) fits the budget; then `trim`
appends the longest such truncated copy — the first fit found while
progressively dropping trailing blocks — and every longer truncation is over
budget.  (When only the last message is excluded, or no proper truncation
fits — in particular a single-block message such as C4's concrete example —
no truncated message is produced; see `c4_single_message_eval`.) -/
theorem c4_partial_truncation_amended (counter : List Msg → Nat) (n : Nat)
    (msgs : List Msg) (bs : List ContentBlock)
    (hidx : searchIdx counter n msgs < msgs.length - 1)
    (hbs : (msgs.getD (searchIdx counter n msgs) default).content = Content.blocks bs)
    (hfit : ∃ u, 1 ≤ u ∧ u < bs.length ∧
      counter (msgs.take (searchIdx counter n msgs) ++
        [setBlocks (msgs.getD (searchIdx counter n msgs) default) (bs.take u)]) ≤ n) :
    ∃ t, 1 ≤ t ∧ t < bs.length
      ∧ counter (msgs.take (searchIdx counter n msgs) ++
          [setBlocks (msgs.getD (searchIdx counter n msgs) default) (bs.take t)]) ≤ n
      ∧ (∀ u, t < u → u < bs.length →
          n < counter (msgs.take (searchIdx counter n msgs) ++
            [setBlocks (msgs.getD (searchIdx counter n msgs) default) (bs.take u)]))
      ∧ trim_messages msgs counter n .first true .nullArg .nullArg false =
          .ok (msgs.take (searchIdx counter n msgs) ++
            [setBlocks (msgs.getD (searchIdx counter n msgs) default) (bs.take t)]) := by
  obtain ⟨u, hu1, hu2, hu3⟩ := hfit
  have hex : ∃ v, 1 ≤ v ∧ v ≤ bs.length - 1 ∧
      blockFits counter n msgs (searchIdx counter n msgs) bs v = true :=
    ⟨u, hu1, by omega, by rw [blockFits]; exact decide_eq_true hu3⟩
  obtain ⟨t, ht⟩ := dropGo_some_of_fit _ _ hex
  obtain ⟨ht1, ht2, ht3, ht4⟩ := dropGo_spec _ _ _ ht
  rw [blockFits] at ht3
  refine ⟨t, ht1, by omega, of_decide_eq_true ht3, ?_, ?_⟩
  · intro v hv1 hv2
    by_contra hle
    push_neg at hle
    have hvfit : blockFits counter n msgs (searchIdx counter n msgs) bs v = true := by
      rw [blockFits]; exact decide_eq_true hle
    have hfalse := ht4 v hv1 (by omega)
    rw [hvfit] at hfalse
    cases hfalse
  · rw [trim_first_dispatch, firstNTokens, truncStage]
    rw [if_pos ⟨hidx, rfl⟩]
    have hblocks : truncateByBlocks counter n msgs (searchIdx counter n msgs) =
        some (msgs.take (searchIdx counter n msgs) ++
          [setBlocks (msgs.getD (searchIdx counter n msgs) default) (bs.take t)]) := by
      simp only [truncateByBlocks, hbs, ht, Option.map_some']
    simp only [truncStep, hblocks, endOnStage]
    have hlen : (msgs.take (searchIdx counter n msgs) ++
        [setBlocks (msgs.getD (searchIdx counter n msgs) default) (bs.take t)]).length ≤
          searchIdx counter n msgs + 1 := by
      simp only [List.length_append, List.length_take, List.length_cons, List.length_nil]
      omega
    rw [List.take_of_length_le hlen]

/-- Witness for C4: the amended mechanism applied at a concrete input — the
two-block boundary message is truncated to its first block, which fits. -/
theorem c4_witness :
    searchIdx sizeCounter 2 [w0, w1, w2] < [w0, w1, w2].length - 1
    ∧ ∃ t, 1 ≤ t ∧ t < ([tb1, tb2] : List ContentBlock).length
        ∧ sizeCounter ([w0, w1, w2].take (searchIdx sizeCounter 2 [w0, w1, w2]) ++
            [setBlocks ([w0, w1, w2].getD (searchIdx sizeCounter 2 [w0, w1, w2]) default)
              (([tb1, tb2] : List ContentBlock).take t)]) ≤ 2
        ∧ (∀ u, t < u → u < ([tb1, tb2] : List ContentBlock).length →
            2 < sizeCounter ([w0, w1, w2].take (searchIdx sizeCounter 2 [w0, w1, w2]) ++
              [setBlocks ([w0, w1, w2].getD (searchIdx sizeCounter 2 [w0, w1, w2]) default)
                (([tb1, tb2] : List ContentBlock).take u)]))
        ∧ trim_messages [w0, w1, w2] sizeCounter 2 .first true .nullArg .nullArg false =
            .ok ([w0, w1, w2].take (searchIdx sizeCounter 2 [w0, w1, w2]) ++
              [setBlocks ([w0, w1, w2].getD (searchIdx sizeCounter 2 [w0, w1, w2]) default)
                (([tb1, tb2] : List ContentBlock).take t)]) :=
  ⟨by decide,
    c4_partial_truncation_amended sizeCounter 2 [w0, w1, w2] [tb1, tb2] (by decide)
      (by decide) ⟨1, by decide, by decide, by decide⟩⟩

/-- The partial-truncation step never turns a nonempty message list into an
empty one. -/
theorem truncStep_fst_cases (counter : List Msg → Nat) (n : Nat)
    (splitter : String → List String) (msgs : List Msg) (idx : Nat) :
    (truncStep counter n splitter msgs idx).1 = msgs
    ∨ ∃ x, (truncStep counter n splitter msgs idx).1 = msgs.take idx ++ [x] := by
  cases hb : truncateByBlocks counter n msgs idx with
  | some outb =>
      obtain ⟨x, bs', he, -, -⟩ := truncateByBlocks_sound counter n msgs idx outb hb
      right
      exact ⟨x, by simp only [truncStep, hb]; exact he⟩
  | none =>
      cases htx : truncateByText counter n splitter msgs idx with
      | some outt =>
          obtain ⟨x, bs', he, -, -⟩ := truncateByText_sound counter n splitter msgs idx outt htx
          right
          exact ⟨x, by simp only [truncStep, hb, htx]; exact he⟩
      | none =>
          left
          simp only [truncStep, hb, htx]

/-- The search-plus-truncation stage of `_first_n_tokens` keeps the message
list nonempty. -/
theorem truncStage_fst_ne_nil (counter : List Msg → Nat) (n : Nat)
    (allowTrunc : Bool) (splitter : String → List String) (msgs : List Msg)
    (h : msgs ≠ []) : (truncStage counter n allowTrunc splitter msgs).1 ≠ [] := by
  rw [truncStage]
  split
  · rcases truncStep_fst_cases counter n splitter msgs (searchIdx counter n msgs)
      with h1 | ⟨x, h1⟩
    · rw [h1]; exact h
    · rw [h1]; simp
  · exact h

/-- On a nonempty input `_first_n_tokens` never raises: the alignment loop's
`messages[idx - 1]` subscript is always in range. -/
theorem firstNTokens_ok_of_ne_nil (counter : List Msg → Nat) (n : Nat)
    (allowTrunc : Bool) (endOn : EndOn) (splitter : String → List String)
    (msgs : List Msg) (h : msgs ≠ []) :
    ∃ out, firstNTokens counter n allowTrunc endOn splitter msgs = .ok out := by
  rw [firstNTokens]
  have hne := truncStage_fst_ne_nil counter n allowTrunc splitter msgs h
  have hemp : (truncStage counter n allowTrunc splitter msgs).1.isEmpty = false := by
    cases hl : (truncStage counter n allowTrunc splitter msgs).1 with
    | nil => exact absurd hl hne
    | cons a tl => rfl
  cases endOn with
  | ostr s =>
      rw [endOnStage]
      rw [if_neg (by rw [hemp]; simp)]
      exact ⟨_, rfl⟩
  | otype t =>
      rw [endOnStage]
      rw [if_neg (by rw [hemp]; simp)]
      exact ⟨_, rfl⟩
  | nullArg => exact ⟨_, rfl⟩
  | oseq specs => exact ⟨_, rfl⟩

/-- C10: `trim(strategy="last", keep_leading_system=True)` on the empty
sequence fails with the out-of-range inspection of `messages[0]`
(utils.py:549), while the same call with `keep_leading_system` unset returns
the empty sequence; and on any nonempty input the first-message inspection
(and the whole call) succeeds. -/
theorem c10_keep_system_empty_input (counter : List Msg → Nat) (n : Nat)
    (allowTrunc : Bool) (startOn : EndOn) (msgs : List Msg) (h : msgs ≠ []) :
    trim_messages [] counter n .last allowTrunc .nullArg .nullArg true = .error .indexError
    ∧ trim_messages [] counter n .last allowTrunc .nullArg .nullArg false = .ok []
    ∧ ∃ out, trim_messages msgs counter n .last allowTrunc .nullArg startOn true = .ok out := by
  refine ⟨?_, ?_, ?_⟩
  · rw [trim_last_dispatch]; rfl
  · rw [trim_last_dispatch]; rfl
  · rw [trim_last_dispatch]
    cases msgs with
    | nil => exact absurd rfl h
    | cons a tl =>
        rw [lastNTokens]
        rw [if_neg (by simp)]
        by_cases hh : (true && headIsSystem (a :: tl)) = true
        · rw [if_pos hh]
          obtain ⟨out, hout⟩ := firstNTokens_ok_of_ne_nil counter n allowTrunc startOn
            default_text_splitter ((a :: tl).take 1 ++ slice10rev (a :: tl)) (by simp)
          exact ⟨out.take 1 ++ slice10rev out, by rw [hout]; rfl⟩
        · rw [if_neg hh]
          obtain ⟨out, hout⟩ := firstNTokens_ok_of_ne_nil counter n allowTrunc startOn
            default_text_splitter (a :: tl).reverse (by simp)
          exact ⟨out.reverse, by rw [hout]; rfl⟩

/-- Witness for C10: the empty-input behaviors plus a successful
`keep_system` call on a nonempty input. -/
theorem c10_witness :
    ([humA] : List Msg) ≠ []
    ∧ (trim_messages [] lenCounter 2 .last false .nullArg .nullArg true = .error .indexError
      ∧ trim_messages [] lenCounter 2 .last false .nullArg .nullArg false = .ok []
      ∧ ∃ out, trim_messages [humA] lenCounter 2 .last false .nullArg .nullArg true = .ok out) :=
  ⟨by decide, c10_keep_system_empty_input lenCounter 2 false .nullArg [humA] (by decide)⟩

/-- Witness for C9: a concrete trimming in which the partial-truncation step
fires (the two-block boundary message is truncated to its first block). -/
theorem c9_witness :
    truncStep sizeCounter 2 default_text_splitter [w0, w1, w2] 1 =
      ([w0, setBlocks w1 [tb1]], 1 + 1)
    ∧ ∃ x bs', [w0, setBlocks w1 [tb1]] = [w0, w1, w2].take 1 ++ [x]
        ∧ x.content = Content.blocks bs' ∧ bs' ≠ [] :=
  ⟨by decide,
    c9_truncated_boundary_nonempty sizeCounter 2 default_text_splitter [w0, w1, w2]
      [w0, setBlocks w1 [tb1]] 1 (by decide)⟩

end Langchain
